import Mathlib

/-!
Verification of the WSI (whole-slide-image) pyramid magnification resolver
of `mhubio/modules/importer/WsiDicomImporter.py` and
`mhubio/modules/processor/WsiMagnificationExtractor.py`.

The Python code is shallowly embedded: the per-file metadata record (a Python
dict with keys filename/size/mag/cols/rows/icols/irows) becomes a structure;
DICOM integers become `Nat`; Python floats become `ℚ` (all the arithmetic the
claims are about is exact); a Python function that can raise becomes a
function into `Except PyErr`; the process-global current working directory and
the filesystem actions of the importer become explicit state passing and an
action trace.
-/

namespace WsiDicom

/-- One scanned candidate file: the dict
`{'filename': .., 'size': .., 'mag': .., 'cols': .., 'rows': .., 'icols': .., 'irows': ..}`
built in `pydicom_extract_information`.  `size` is
`TotalPixelMatrixRows * TotalPixelMatrixColumns`, `mag` the
`ObjectiveLensPower` float, `cols`/`rows` the total pixel matrix, and
`icols`/`irows` the stored tile dimensions (`Columns`/`Rows`). -/
structure ImageRecord where
  filename : String
  size : Nat
  mag : ℚ
  cols : Nat
  rows : Nat
  icols : Nat
  irows : Nat
deriving Repr, DecidableEq

/-- The Python exceptions the embedded code can raise. -/
inductive PyErr where
  /-- `ZeroDivisionError`, raised by `/` on a zero divisor. -/
  | zeroDivisionError
  /-- `TypeError: 'NoneType' object is not subscriptable`, raised by
  `matchingImage['filename']` when `matchingImage` is `None`. -/
  | typeErrorNoneSubscript
deriving Repr, DecidableEq

/-! ### The sort `imageList.sort(key=lambda x: x['size'], reverse=True)`

Python's list sort is stable; with `reverse=True` it orders keys descending
while elements with equal keys keep their original relative order.  The
insertion sort below has exactly that behaviour: an element is inserted
before every element of equal or smaller key that came later in the input. -/

/-- Insert `x` into a size-descending list, before the first element whose
`size` is not larger — so an earlier-input element precedes later-input
elements of equal `size`, as Python's stable sort does. -/
def insertBySizeDesc (x : ImageRecord) : List ImageRecord → List ImageRecord
  | [] => [x]
  | y :: ys => if x.size < y.size then y :: insertBySizeDesc x ys else x :: y :: ys

/-- `imageList.sort(key=lambda x: x['size'], reverse=True)`: stable,
descending by `size`. -/
def sortBySizeDesc : List ImageRecord → List ImageRecord
  | [] => []
  | x :: xs => insertBySizeDesc x (sortBySizeDesc xs)

/-! ### Analyzer: `analyze_image_list` -/

/-- Whether a record passes the square-tile filter
`imageList[i]['icols'] == imageList[i]['irows']`. -/
def isSquareTile (r : ImageRecord) : Bool := r.icols == r.irows

/-- The record the Analyzer appends for a square-tiled record `r`:
the same fields with
`mag := imageList[0]['mag'] * (imageList[i]['cols'] / imageList[0]['cols'])`. -/
def mkTiledRecord (base r : ImageRecord) : ImageRecord :=
  { r with mag := base.mag * ((r.cols : ℚ) / (base.cols : ℚ)) }

/-- The loop body of `analyze_image_list` over the already-sorted list, with
`base` the sorted list's index-0 element.  Python raises `ZeroDivisionError`
on `cols / 0` (the division is only reached for square-tiled records). -/
def analyzeLoop (base : ImageRecord) : List ImageRecord → Except PyErr (List ImageRecord)
  | [] => .ok []
  | r :: rs =>
    if isSquareTile r then
      if base.cols = 0 then .error .zeroDivisionError
      else
        match analyzeLoop base rs with
        | .ok rest => .ok (mkTiledRecord base r :: rest)
        | .error e => .error e
    else analyzeLoop base rs

/-- `analyze_image_list`, with the in-place `imageList.sort(...)` made
explicit: the pair is (the caller's list after the call, the returned
`tiledImages` or the exception).  When the list is empty the loop body never
runs and the result is the empty list. -/
def analyze_image_list_st (l : List ImageRecord) :
    List ImageRecord × Except PyErr (List ImageRecord) :=
  match sortBySizeDesc l with
  | [] => ([], .ok [])
  | base :: rest => (base :: rest, analyzeLoop base (base :: rest))

/-- The value returned by `analyze_image_list` (or the exception it raises). -/
def analyze_image_list (l : List ImageRecord) : Except PyErr (List ImageRecord) :=
  (analyze_image_list_st l).2

/-! ### Matcher: `return_magnitude_match` (identical in both modules) -/

/-- `return_magnitude_match(imageList, targetMag, magTolerance)`: return the
first record with `abs(imageList[i]['mag'] - targetMag) < magTolerance`,
else `None`. -/
def return_magnitude_match (l : List ImageRecord) (targetMag magTolerance : ℚ) :
    Option ImageRecord :=
  match l with
  | [] => none
  | r :: rs =>
    if |r.mag - targetMag| < magTolerance then some r
    else return_magnitude_match rs targetMag magTolerance

/-! ### Strings

Python's `str.endswith` / `str.startswith` are modelled on the character
lists underlying Lean strings, so that they evaluate inside the kernel. -/

/-- `s.endswith(t)`. -/
def strEndsWith (s t : String) : Bool := t.data.isSuffixOf s.data

/-- `s.startswith(t)`. -/
def strStartsWith (s t : String) : Bool := t.data.isPrefixOf s.data

/-! ### Scanner: `pydicom_extract_information` -/

/-- The seven scalar fields a successful `extract_image_info_dicom` returns
(after the leading success flag):
`ImageSize, ObjectiveLensPower, TotalColumns, TotalRows, Columns, Rows`. -/
structure ExtractedInfo where
  size : Nat
  mag : ℚ
  cols : Nat
  rows : Nat
  icols : Nat
  irows : Nat
deriving Repr, DecidableEq

/-- The record `{'filename': filename, 'size': size, 'mag': mag, 'cols': cols,
'rows': rows, 'icols': icols, 'irows': irows}` appended on a successful
extraction: every field comes from the one extraction result. -/
def mkImageRecord (filename : String) (i : ExtractedInfo) : ImageRecord :=
  { filename := filename, size := i.size, mag := i.mag, cols := i.cols,
    rows := i.rows, icols := i.icols, irows := i.irows }

/-- The candidate filter `glob('*dcm')`: the pattern `*dcm` matches any name
ending in the three characters `dcm` (with or without a dot), but Python's
`glob` never matches hidden files, whose name begins with `.`, because the
pattern does not begin with `.`. -/
def globStarDcm (name : String) : Bool :=
  strEndsWith name "dcm" && !(strStartsWith name ".")

/-- The loop of `pydicom_extract_information` over the candidate filenames:
on success (`ext f = some i`) append the record, on failure skip the file
and continue.  `ext` stands for `extract_image_info_dicom`, the external
metadata-decoding collaborator. -/
def scanLoop (ext : String → Option ExtractedInfo) : List String → List ImageRecord
  | [] => []
  | f :: fs =>
    match ext f with
    | some i => mkImageRecord f i :: scanLoop ext fs
    | none => scanLoop ext fs

/-- `pydicom_extract_information(basedir)` once the directory listing is in
hand: run the extraction loop over the entries matched by `glob('*dcm')`. -/
def pydicom_extract_information (ext : String → Option ExtractedInfo)
    (listing : List String) : List ImageRecord :=
  scanLoop ext (listing.filter globStarDcm)

/-- `pydicom_extract_information(basedir)` with the process state made
explicit.  The function's first statement is `os.chdir(basedir)`: the
current working directory becomes `basedir` and is never restored.  The
subsequent `glob('*dcm')` lists the (new) current working directory, and
`extract_image_info_dicom` opens each bare filename relative to it, so
`fsListing` and `ext` both take the directory the process is in.  The
result pairs the current working directory after the call with the
returned list. -/
def pydicom_extract_information_st (fsListing : String → List String)
    (ext : String → String → Option ExtractedInfo)
    (basedir cwd0 : String) : String × List ImageRecord :=
  let cwd1 := basedir
  (cwd1, pydicom_extract_information (ext cwd1) (fsListing cwd1))

/-! ### Directory-shape probe: `scanSourceDir` -/

/-- One first-level entry of the source directory, as `os.path.isfile` /
`os.path.isdir` classify it (an entry can be neither, e.g. a broken
symlink). -/
structure DirEntry where
  name : String
  isFile : Bool
  isDir : Bool
deriving Repr, DecidableEq

/-- `InputDirStructure`. -/
inductive InputDirStructure where
  | FLAT
  | SERIES
  | UNKNOWN
deriving Repr, DecidableEq

/-- `scanSourceDir(input_dir)`: FLAT when every first-level entry is a file
whose name ends in `.dcm`, else SERIES when every entry is a directory,
else UNKNOWN. -/
def scanSourceDir (entries : List DirEntry) : InputDirStructure :=
  let hasOnlyDicomFiles := entries.all (fun d => d.isFile && strEndsWith d.name ".dcm")
  let hasOnlyFolders := entries.all (fun d => d.isDir)
  if hasOnlyDicomFiles then .FLAT
  else if hasOnlyFolders then .SERIES
  else .UNKNOWN

/-! ### Importer orchestration

The filesystem side effects of `importSingleInstance` and
`importMultipleInstances` are embedded as an action trace; path joins are
modelled as string concatenation.  Each function takes the Matcher's result
for an instance (the value of
`return_magnitude_match(tiledImages, magnification, magTolerance)`)
and yields the actions performed plus the exception raised, if any. -/

/-- One observable side effect of the importer. -/
inductive ImportAction where
  /-- `Instance(..)` / `instance.attr['sid'] = sid` / `addInstance`. -/
  | createInstance (sid : String)
  /-- the diagnostic `'no image matching the ... target magnification ...'`. -/
  | logNoMatch
  /-- the diagnostic naming the matched file. -/
  | logMatch (filename : String)
  /-- the `os.path.exists` check plus `os.makedirs(dicom_data.abspath)`. -/
  | makeDirs (path : String)
  /-- `shutil.copyfile(src, dst)`. -/
  | copyFile (src dst : String)
  /-- `self.updateMeta(dicom_data)`: metadata placeholder resolution. -/
  | updateMeta
  /-- `dicom_data.confirm()` after the `os.path.isdir` check. -/
  | confirmData
deriving Repr, DecidableEq

/-- `importSingleInstance`: when the Matcher returns `None` only the
diagnostic is logged — the whole copy/metadata block sits inside the
`else` branch. -/
def importSingleInstanceSteps (input_dir dicom_dir : String)
    (matchingImage : Option ImageRecord) : List ImportAction × Option PyErr :=
  match matchingImage with
  | none => ([.createInstance "inst0", .logNoMatch], none)
  | some m =>
    ([.createInstance "inst0", .logMatch m.filename, .makeDirs dicom_dir,
      .copyFile (input_dir ++ "/" ++ m.filename) (dicom_dir ++ "/" ++ m.filename),
      .updateMeta, .confirmData], none)

/-- The body of the per-instance loop of `importMultipleInstances`.  Unlike
`importSingleInstance`, the block from `dicom_data_meta = self.meta.copy()`
onwards is NOT inside the `else` of `if matchingImage is None:` — it runs
unconditionally.  With `matchingImage = None` the directory is still created
and then `matchingImage['filename']` inside the `shutil.copyfile` argument
raises `TypeError` before any file is copied. -/
def importInstanceStepsMulti (input_dir dicom_dir sid : String)
    (matchingImage : Option ImageRecord) : List ImportAction × Option PyErr :=
  match matchingImage with
  | none =>
    ([.createInstance sid, .logNoMatch, .makeDirs dicom_dir],
     some .typeErrorNoneSubscript)
  | some m =>
    ([.createInstance sid, .logMatch m.filename, .makeDirs dicom_dir,
      .copyFile (input_dir ++ "/" ++ sid ++ "/" ++ m.filename)
        (dicom_dir ++ "/" ++ m.filename),
      .updateMeta, .confirmData], none)

/-- The loop of `importMultipleInstances` over the instance subdirectories
(`sid`, Matcher result) — an uncaught exception in one iteration propagates
and ends the loop, so the remaining instances are never processed. -/
def importMultipleInstancesRun (input_dir : String) (dicomDirOf : String → String) :
    List (String × Option ImageRecord) → List ImportAction × Option PyErr
  | [] => ([], none)
  | (sid, mi) :: rest =>
    match importInstanceStepsMulti input_dir (dicomDirOf sid) sid mi with
    | (acts, some e) => (acts, some e)
    | (acts, none) =>
      match importMultipleInstancesRun input_dir dicomDirOf rest with
      | (acts2, err2) => (acts ++ acts2, err2)

/-! ## Lemmas about the sort -/

/-- Inserting is a permutation: the sorted list holds exactly the caller's
records. -/
theorem insertBySizeDesc_perm (x : ImageRecord) (l : List ImageRecord) :
    (insertBySizeDesc x l).Perm (x :: l) := by
  induction l with
  | nil => exact List.Perm.refl _
  | cons y ys ih =>
    unfold insertBySizeDesc
    by_cases h : x.size < y.size
    · simp only [h, if_true]
      exact (ih.cons y).trans (List.Perm.swap x y ys)
    · simp only [h, if_false]
      exact List.Perm.refl _

/-- The sort is a permutation of its input. -/
theorem sortBySizeDesc_perm (l : List ImageRecord) :
    (sortBySizeDesc l).Perm l := by
  induction l with
  | nil => exact List.Perm.refl _
  | cons x xs ih =>
    exact (insertBySizeDesc_perm x (sortBySizeDesc xs)).trans (ih.cons x)

/-- Inserting preserves the size-descending order. -/
theorem insertBySizeDesc_pairwise (x : ImageRecord) (l : List ImageRecord)
    (h : l.Pairwise (fun a b => b.size ≤ a.size)) :
    (insertBySizeDesc x l).Pairwise (fun a b => b.size ≤ a.size) := by
  induction l with
  | nil => simp [insertBySizeDesc]
  | cons y ys ih =>
    rcases List.pairwise_cons.mp h with ⟨hy, hys⟩
    unfold insertBySizeDesc
    by_cases hlt : x.size < y.size
    · simp only [hlt, if_true]
      refine List.pairwise_cons.mpr ⟨?_, ih hys⟩
      intro z hz
      have hz' : z ∈ x :: ys := (insertBySizeDesc_perm x ys).mem_iff.mp hz
      rcases List.mem_cons.mp hz' with hzx | hzys
      · exact hzx ▸ Nat.le_of_lt hlt
      · exact hy z hzys
    · simp only [hlt, if_false]
      refine List.pairwise_cons.mpr ⟨?_, h⟩
      intro z hz
      rcases List.mem_cons.mp hz with hzy | hzys
      · exact hzy ▸ Nat.le_of_not_lt hlt
      · exact Nat.le_trans (hy z hzys) (Nat.le_of_not_lt hlt)

/-- The sorted list is size-descending. -/
theorem sortBySizeDesc_pairwise (l : List ImageRecord) :
    (sortBySizeDesc l).Pairwise (fun a b => b.size ≤ a.size) := by
  induction l with
  | nil => simp [sortBySizeDesc]
  | cons x xs ih => exact insertBySizeDesc_pairwise x (sortBySizeDesc xs) ih

/-- Two size-descending lists that are permutations of each other and whose
records have pairwise distinct sizes are equal: with no size ties the
descending order is unique. -/
theorem sorted_perm_eq_of_sizes_distinct :
    ∀ (l₁ l₂ : List ImageRecord), l₁.Perm l₂ →
      l₁.Pairwise (fun a b => b.size ≤ a.size) →
      l₂.Pairwise (fun a b => b.size ≤ a.size) →
      l₁.Pairwise (fun a b => a.size ≠ b.size) → l₁ = l₂
  | [], l₂, hp, _, _, _ => hp.nil_eq
  | a :: t₁, [], hp, _, _, _ => absurd hp.symm.nil_eq (by simp)
  | a :: t₁, b :: t₂, hp, hs₁, hs₂, hd => by
    rcases List.pairwise_cons.mp hs₁ with ⟨ha, hs₁'⟩
    rcases List.pairwise_cons.mp hs₂ with ⟨hb, hs₂'⟩
    rcases List.pairwise_cons.mp hd with ⟨hda, hd'⟩
    by_cases hab : a = b
    · subst hab
      have ht : t₁.Perm t₂ := hp.cons_inv
      have : t₁ = t₂ := sorted_perm_eq_of_sizes_distinct t₁ t₂ ht hs₁' hs₂' hd'
      rw [this]
    · exfalso
      have hbmem : b ∈ a :: t₁ := hp.symm.subset (List.mem_cons_self b t₂)
      have hbt₁ : b ∈ t₁ := by
        rcases List.mem_cons.mp hbmem with h | h
        · exact absurd h.symm hab
        · exact h
      have hamem : a ∈ b :: t₂ := hp.subset (List.mem_cons_self a t₁)
      have hat₂ : a ∈ t₂ := by
        rcases List.mem_cons.mp hamem with h | h
        · exact absurd h hab
        · exact h
      have h1 : b.size ≤ a.size := ha b hbt₁
      have h2 : a.size ≤ b.size := hb a hat₂
      exact hda b hbt₁ (Nat.le_antisymm h2 h1)

/-! ## Lemmas about the Analyzer loop -/

/-- When the base record's `cols` is nonzero the loop never raises: it
returns the square-tiled records in order, each rebuilt with the computed
magnification. -/
theorem analyzeLoop_ok_of_cols_ne_zero (base : ImageRecord) (hc : base.cols ≠ 0) :
    ∀ xs : List ImageRecord,
      analyzeLoop base xs = .ok ((xs.filter isSquareTile).map (mkTiledRecord base))
  | [] => rfl
  | r :: rs => by
    unfold analyzeLoop
    by_cases hr : isSquareTile r
    · simp [hr, hc, analyzeLoop_ok_of_cols_ne_zero base hc rs, List.filter_cons]
    · simp [hr, analyzeLoop_ok_of_cols_ne_zero base hc rs, List.filter_cons]

/-- Whenever the loop returns normally, its value is the filtered, rebuilt
list (also when `base.cols = 0`, in which case a normal return forces the
filter to be empty). -/
theorem analyzeLoop_eq_ok (base : ImageRecord) :
    ∀ (xs out : List ImageRecord), analyzeLoop base xs = .ok out →
      out = (xs.filter isSquareTile).map (mkTiledRecord base)
  | [], out, h => by
    simpa [analyzeLoop] using h.symm
  | r :: rs, out, h => by
    unfold analyzeLoop at h
    by_cases hr : isSquareTile r
    · simp only [hr, if_true] at h
      by_cases hc : base.cols = 0
      · simp [hc] at h
      · simp only [hc, if_false] at h
        cases hrec : analyzeLoop base rs with
        | error e => rw [hrec] at h; exact absurd h (by simp)
        | ok rest =>
          rw [hrec] at h
          have hout : out = mkTiledRecord base r :: rest := by
            simpa using h.symm
          rw [hout, analyzeLoop_eq_ok base rs rest hrec]
          simp [List.filter_cons, hr]
    · simp only [hr, if_false, Bool.false_eq_true] at h
      rw [analyzeLoop_eq_ok base rs out h]
      simp [List.filter_cons, hr]

/-- With a zero-`cols` base, the loop raises `ZeroDivisionError` as soon as
it meets a square-tiled record. -/
theorem analyzeLoop_error_of_cols_zero (base : ImageRecord) (h0 : base.cols = 0) :
    ∀ xs : List ImageRecord, (∃ r ∈ xs, isSquareTile r = true) →
      analyzeLoop base xs = .error .zeroDivisionError
  | [], h => by simp at h
  | r :: rs, h => by
    unfold analyzeLoop
    by_cases hr : isSquareTile r
    · simp [hr, h0]
    · simp only [hr, if_false, Bool.false_eq_true]
      rcases h with ⟨r', hr', hsq⟩
      rcases List.mem_cons.mp hr' with h | h
      · exact absurd (h ▸ hsq) (by simp [hr])
      · exact analyzeLoop_error_of_cols_zero base h0 rs ⟨r', h, hsq⟩

/-! ## Lemmas about the Scanner loop -/

/-- The extraction loop keeps exactly the successfully extracted files, in
order, each as a fully populated record. -/
theorem scanLoop_eq_filterMap (ext : String → Option ExtractedInfo) :
    ∀ fs : List String,
      scanLoop ext fs = fs.filterMap (fun f => (ext f).map (mkImageRecord f))
  | [] => rfl
  | f :: fs => by
    unfold scanLoop
    cases hf : ext f with
    | some i => simp [hf, List.filterMap_cons, scanLoop_eq_filterMap ext fs]
    | none => simp [hf, List.filterMap_cons, scanLoop_eq_filterMap ext fs]

/-! ## Lemmas about the Matcher -/

/-- `return_magnitude_match` returns `None` exactly when every record is at
least the tolerance away from the target. -/
theorem return_magnitude_match_none_iff (t tol : ℚ) :
    ∀ l : List ImageRecord,
      (return_magnitude_match l t tol = none ↔ ∀ r ∈ l, tol ≤ |r.mag - t|)
  | [] => by simp [return_magnitude_match]
  | r :: rs => by
    unfold return_magnitude_match
    by_cases h : |r.mag - t| < tol
    · simp only [h, if_true]
      constructor
      · intro hc; exact absurd hc (by simp)
      · intro hall
        exact absurd h (not_lt.mpr (hall r (List.mem_cons_self r rs)))
    · simp only [h, if_false]
      rw [return_magnitude_match_none_iff t tol rs]
      constructor
      · intro hall r' hr'
        rcases List.mem_cons.mp hr' with hh | hh
        · exact hh ▸ not_lt.mp h
        · exact hall r' hh
      · intro hall r' hr'
        exact hall r' (List.mem_cons_of_mem r hr')

/-- When `return_magnitude_match` returns a record, that record is within
tolerance and is the first such: every record before it in the list is at
least the tolerance away. -/
theorem return_magnitude_match_some_first (t tol : ℚ) :
    ∀ (l : List ImageRecord) (m : ImageRecord),
      return_magnitude_match l t tol = some m →
        |m.mag - t| < tol ∧
          ∃ l₁ l₂, l = l₁ ++ m :: l₂ ∧ ∀ r ∈ l₁, tol ≤ |r.mag - t|
  | [], m, h => by simp [return_magnitude_match] at h
  | r :: rs, m, h => by
    unfold return_magnitude_match at h
    by_cases hc : |r.mag - t| < tol
    · simp only [hc, if_true, Option.some.injEq] at h
      subst h
      exact ⟨hc, [], rs, rfl, by simp⟩
    · simp only [hc, if_false] at h
      rcases return_magnitude_match_some_first t tol rs m h with ⟨hm, l₁, l₂, heq, hall⟩
      refine ⟨hm, r :: l₁, l₂, by rw [heq, List.cons_append], ?_⟩
      intro r' hr'
      rcases List.mem_cons.mp hr' with hh | hh
      · exact hh ▸ not_lt.mp hc
      · exact hall r' hh

/-! ## Concrete records used by witnesses and counterexamples -/

/-- A record whose `size` ties `tieRecB` but whose header magnification and
filename differ: a size tie at the maximum. -/
def tieRecA : ImageRecord := ⟨"a", 100, 20, 100, 1, 7, 7⟩

/-- The tie partner of `tieRecA`. -/
def tieRecB : ImageRecord := ⟨"b", 100, 10, 100, 1, 7, 7⟩

/-- A base record with `cols = 0`: the degenerate-base edge case. -/
def degenerateBaseRec : ImageRecord := ⟨"degenerate", 0, 5, 0, 0, 1, 1⟩

/-- A square-tiled base record with nonzero `cols`. -/
def squareBaseRec : ImageRecord := ⟨"base", 4, 20, 2, 2, 3, 3⟩

/-- A non-square-tiled largest record (the base that is filtered out). -/
def nonSquareBigRec : ImageRecord := ⟨"big", 100, 20, 10, 10, 2, 1⟩

/-- A square-tiled smaller record: half the columns of `nonSquareBigRec`. -/
def squareSmallRec : ImageRecord := ⟨"small", 25, 99, 5, 5, 3, 3⟩

/-- First of two records with distinct sizes. -/
def sizedRecA : ImageRecord := ⟨"p", 9, 3, 3, 3, 2, 2⟩

/-- Second of two records with distinct sizes. -/
def sizedRecB : ImageRecord := ⟨"q", 4, 7, 2, 2, 2, 2⟩

/-- A record standing for a matched image in the importer models. -/
def matchedRec : ImageRecord := ⟨"match.dcm", 100, 10, 10, 10, 4, 4⟩

/-! ## The claims -/

/-- C2: whenever the Analyzer returns normally, its output is the
size-descending sort of the input restricted to the square-tiled records,
in sorted order, each rebuilt with
`effective_magnification = base.mag * (cols / base.cols)` where `base` is
index 0 of the full sorted sequence — also when that base is itself
non-square and hence absent from the output. -/
theorem analyze_image_list_ok_eq (l out : List ImageRecord)
    (h : analyze_image_list l = Except.ok out) :
    out = match sortBySizeDesc l with
      | [] => []
      | base :: _ =>
        ((sortBySizeDesc l).filter (fun r => r.icols == r.irows)).map
          (fun r => { r with mag := base.mag * ((r.cols : ℚ) / (base.cols : ℚ)) }) := by
  cases hs : sortBySizeDesc l with
  | nil =>
    have hok : analyze_image_list l = Except.ok [] := by
      simp [analyze_image_list, analyze_image_list_st, hs]
    rw [hok] at h
    simpa using h.symm
  | cons base rest =>
    have hloop : analyzeLoop base (base :: rest) = Except.ok out := by
      simpa [analyze_image_list, analyze_image_list_st, hs] using h
    exact analyzeLoop_eq_ok base (base :: rest) out hloop

/-- C2 witness: a concrete run whose largest record is non-square: the base
is still the reference for the one surviving square record. -/
theorem analyze_image_list_ok_eq_witness :
    [mkTiledRecord nonSquareBigRec squareSmallRec] =
      match sortBySizeDesc [nonSquareBigRec, squareSmallRec] with
      | [] => []
      | base :: _ =>
        ((sortBySizeDesc [nonSquareBigRec, squareSmallRec]).filter
            (fun r => r.icols == r.irows)).map
          (fun r => { r with mag := base.mag * ((r.cols : ℚ) / (base.cols : ℚ)) }) :=
  analyze_image_list_ok_eq [nonSquareBigRec, squareSmallRec]
    [mkTiledRecord nonSquareBigRec squareSmallRec] rfl

/-- C3: the Matcher scans in the given order and yields the first record
with `|mag - target| < tolerance` (strict: a record exactly at the
boundary never matches); with no qualifying record — in particular on the
empty list — it returns `none` and nothing else. -/
theorem return_magnitude_match_spec (l : List ImageRecord) (t tol : ℚ) :
    (return_magnitude_match l t tol = none ↔ ∀ r ∈ l, tol ≤ |r.mag - t|)
  ∧ (∀ m, return_magnitude_match l t tol = some m →
      |m.mag - t| < tol ∧ ∃ l₁ l₂, l = l₁ ++ m :: l₂ ∧ ∀ r ∈ l₁, tol ≤ |r.mag - t|)
  ∧ (∀ m ∈ l, |m.mag - t| = tol → return_magnitude_match l t tol ≠ some m)
  ∧ return_magnitude_match ([] : List ImageRecord) t tol = none := by
  refine ⟨return_magnitude_match_none_iff t tol l,
    fun m => return_magnitude_match_some_first t tol l m, ?_, rfl⟩
  intro m _ hb hsome
  have := (return_magnitude_match_some_first t tol l m hsome).1
  rw [hb] at this
  exact lt_irrefl tol this

/-- C4: a nonempty input whose size-sorted first record has `cols = 0`, with
at least one square-tiled record, makes the Analyzer raise
`ZeroDivisionError` instead of returning a value. -/
theorem analyze_image_list_zero_base (l : List ImageRecord) (base : ImageRecord)
    (rest : List ImageRecord) (h : sortBySizeDesc l = base :: rest)
    (h0 : base.cols = 0) (hsq : ∃ r ∈ l, r.icols = r.irows) :
    analyze_image_list l = Except.error PyErr.zeroDivisionError := by
  have hmem : ∃ r ∈ base :: rest, isSquareTile r = true := by
    rcases hsq with ⟨r, hr, hrs⟩
    exact ⟨r, h ▸ ((sortBySizeDesc_perm l).mem_iff.mpr hr), by simp [isSquareTile, hrs]⟩
  simp [analyze_image_list, analyze_image_list_st, h,
    analyzeLoop_error_of_cols_zero base h0 _ hmem]

/-- C4 witness: one square-tiled record with `cols = 0` raises. -/
theorem analyze_image_list_zero_base_witness :
    analyze_image_list [degenerateBaseRec] = Except.error PyErr.zeroDivisionError :=
  analyze_image_list_zero_base [degenerateBaseRec] degenerateBaseRec [] rfl rfl
    ⟨degenerateBaseRec, by simp, rfl⟩

/-- C6: when the size-sorted first record is itself square-tiled with
nonzero `cols`, the Analyzer succeeds, that record heads the output, and
its effective magnification is exactly its own header magnification
(`base.mag * (base.cols / base.cols) = base.mag`, scale factor 1). -/
theorem analyze_image_list_base_self_mag (l : List ImageRecord)
    (base : ImageRecord) (rest : List ImageRecord)
    (h : sortBySizeDesc l = base :: rest) (hsq : base.icols = base.irows)
    (hc : base.cols ≠ 0) :
    (∃ tl, analyze_image_list l =
      Except.ok ({ base with mag := base.mag * ((base.cols : ℚ) / (base.cols : ℚ)) } :: tl))
    ∧ base.mag * ((base.cols : ℚ) / (base.cols : ℚ)) = base.mag := by
  constructor
  · refine ⟨(rest.filter isSquareTile).map (mkTiledRecord base), ?_⟩
    simp [analyze_image_list, analyze_image_list_st, h,
      analyzeLoop_ok_of_cols_ne_zero base hc, List.filter_cons, isSquareTile, hsq,
      mkTiledRecord]
  · rw [div_self (Nat.cast_ne_zero.mpr hc), mul_one]

/-- C6 witness: a concrete square-tiled base keeps its header magnification
exactly. -/
theorem analyze_image_list_base_self_mag_witness :
    (∃ tl, analyze_image_list [squareBaseRec] =
      Except.ok ({ squareBaseRec with
        mag := squareBaseRec.mag * ((squareBaseRec.cols : ℚ) / (squareBaseRec.cols : ℚ)) } :: tl))
    ∧ squareBaseRec.mag * ((squareBaseRec.cols : ℚ) / (squareBaseRec.cols : ℚ))
        = squareBaseRec.mag :=
  analyze_image_list_base_self_mag [squareBaseRec] squareBaseRec [] rfl rfl (by decide)

/-- C5 counterexample: two square-tiled records that tie on `size` but carry
different header magnifications.  The two orderings of the same two records
are permutations of each other, yet the Analyzer's outputs differ: the
stable sort keeps the presentation order of the tied records, so each run
picks a different base record. -/
theorem analyze_image_list_perm_counterexample :
    ([tieRecA, tieRecB] : List ImageRecord).Perm [tieRecB, tieRecA]
    ∧ analyze_image_list [tieRecA, tieRecB] ≠ analyze_image_list [tieRecB, tieRecA] := by
  constructor
  · exact List.Perm.swap tieRecB tieRecA []
  · intro h
    have h1 : analyze_image_list [tieRecA, tieRecB]
        = Except.ok [mkTiledRecord tieRecA tieRecA, mkTiledRecord tieRecA tieRecB] := rfl
    have h2 : analyze_image_list [tieRecB, tieRecA]
        = Except.ok [mkTiledRecord tieRecB tieRecB, mkTiledRecord tieRecB tieRecA] := rfl
    rw [h1, h2] at h
    simp only [Except.ok.injEq, List.cons.injEq] at h
    exact absurd (congrArg ImageRecord.filename h.1) (by decide)

/-- C5 (amended): the Analyzer's output is invariant under permutation of
the input provided the records' `total_pixels` sizes are pairwise distinct —
with a size tie the stable sort depends on presentation order and the
output can differ. -/
theorem analyze_image_list_perm_invariant (l₁ l₂ : List ImageRecord)
    (hp : l₁.Perm l₂) (hd : l₁.Pairwise (fun a b => a.size ≠ b.size)) :
    analyze_image_list l₁ = analyze_image_list l₂ := by
  have hperm : (sortBySizeDesc l₁).Perm (sortBySizeDesc l₂) :=
    ((sortBySizeDesc_perm l₁).trans hp).trans (sortBySizeDesc_perm l₂).symm
  have hd₁ : (sortBySizeDesc l₁).Pairwise (fun a b => a.size ≠ b.size) :=
    ((sortBySizeDesc_perm l₁).pairwise_iff (fun hxy he => hxy he.symm)).mpr hd
  have hs := sorted_perm_eq_of_sizes_distinct (sortBySizeDesc l₁) (sortBySizeDesc l₂)
    hperm (sortBySizeDesc_pairwise l₁) (sortBySizeDesc_pairwise l₂) hd₁
  simp [analyze_image_list, analyze_image_list_st, hs]

/-- C5 witness: two records with distinct sizes analyzed in both orders. -/
theorem analyze_image_list_perm_invariant_witness :
    analyze_image_list [sizedRecA, sizedRecB] = analyze_image_list [sizedRecB, sizedRecA] :=
  analyze_image_list_perm_invariant [sizedRecA, sizedRecB] [sizedRecB, sizedRecA]
    (List.Perm.swap sizedRecB sizedRecA [])
    (by simp [List.pairwise_cons, sizedRecA, sizedRecB])

/-- C7: the Scanner is the extraction loop over the glob-matched candidate
files: a file whose extraction fails contributes no record and the scan
continues; every record comes, fully populated, from one successful
extraction; an empty directory, and a directory where every extraction
fails, both yield the empty sequence rather than an error. -/
theorem pydicom_extract_information_spec (ext : String → Option ExtractedInfo)
    (listing : List String) :
    (pydicom_extract_information ext listing
      = (listing.filter globStarDcm).filterMap (fun f => (ext f).map (mkImageRecord f)))
  ∧ ((∀ f ∈ listing, ext f = none) → pydicom_extract_information ext listing = [])
  ∧ pydicom_extract_information ext ([] : List String) = []
  ∧ (∀ r ∈ pydicom_extract_information ext listing,
      ∃ f i, f ∈ listing ∧ ext f = some i ∧ r = mkImageRecord f i) := by
  have hmain : pydicom_extract_information ext listing
      = (listing.filter globStarDcm).filterMap (fun f => (ext f).map (mkImageRecord f)) :=
    scanLoop_eq_filterMap ext (listing.filter globStarDcm)
  refine ⟨hmain, ?_, rfl, ?_⟩
  · intro hall
    rw [hmain]
    refine List.filterMap_eq_nil_iff.mpr ?_
    intro f hf
    rw [hall f (List.mem_filter.mp hf).1]
    rfl
  · intro r hr
    rw [hmain] at hr
    rcases List.mem_filterMap.mp hr with ⟨f, hf, hsome⟩
    rcases Option.map_eq_some'.mp hsome with ⟨i, hi, hrec⟩
    exact ⟨f, i, (List.mem_filter.mp hf).1, hi, hrec.symm⟩

/-- C8 counterexample: the scan does not leave the current working
directory unchanged — `pydicom_extract_information` begins with
`os.chdir(basedir)` and never restores the previous directory.  Here the
process starts in `/app`, scans `/data`, and ends in `/data`. -/
theorem pydicom_extract_information_chdir_counterexample :
    (pydicom_extract_information_st (fun _ => []) (fun _ _ => none) "/data" "/app").1
      ≠ "/app" := by decide

/-- C8 (amended): the scan's record list depends only on the `basedir`
argument, not on the prior current working directory — but the call mutates
process-global state, leaving the current working directory equal to
`basedir` instead of restoring it. -/
theorem pydicom_extract_information_st_cwd (fsListing : String → List String)
    (ext : String → String → Option ExtractedInfo) (basedir cwd0 cwd0' : String) :
    ((pydicom_extract_information_st fsListing ext basedir cwd0).1 = basedir)
  ∧ ((pydicom_extract_information_st fsListing ext basedir cwd0).2
      = (pydicom_extract_information_st fsListing ext basedir cwd0').2) :=
  ⟨rfl, rfl⟩

/-- C9: `analyze_image_list` reorders the caller's list in place: after the
call the caller's list is the size-descending permutation of the records it
held (the record values themselves unchanged), and every record of a
normally returned output is freshly built by `mkTiledRecord` from a
square-tiled record of the caller's list. -/
theorem analyze_image_list_st_frame (l : List ImageRecord) :
    ((analyze_image_list_st l).1 = sortBySizeDesc l)
  ∧ ((analyze_image_list_st l).1).Perm l
  ∧ ((analyze_image_list_st l).1).Pairwise (fun a b => b.size ≤ a.size)
  ∧ ((analyze_image_list_st l).2 = analyze_image_list l)
  ∧ (∀ base rest, (analyze_image_list_st l).1 = base :: rest →
      ∀ out, analyze_image_list l = Except.ok out →
        ∀ p ∈ out, ∃ r ∈ l, isSquareTile r = true ∧ p = mkTiledRecord base r) := by
  have h1 : (analyze_image_list_st l).1 = sortBySizeDesc l := by
    cases hs : sortBySizeDesc l with
    | nil => simp [analyze_image_list_st, hs]
    | cons base rest => simp [analyze_image_list_st, hs]
  refine ⟨h1, h1 ▸ sortBySizeDesc_perm l, h1 ▸ sortBySizeDesc_pairwise l, rfl, ?_⟩
  intro base rest hbr out hout p hp
  have hsort : sortBySizeDesc l = base :: rest := h1 ▸ hbr
  have hloop : analyzeLoop base (base :: rest) = Except.ok out := by
    simpa [analyze_image_list, analyze_image_list_st, hsort] using hout
  rw [analyzeLoop_eq_ok base (base :: rest) out hloop] at hp
  rcases List.mem_map.mp hp with ⟨r, hrmem, hpr⟩
  have hrl : r ∈ l := (sortBySizeDesc_perm l).subset
    (hsort ▸ List.mem_of_mem_filter hrmem)
  exact ⟨r, hrl, (List.mem_filter.mp hrmem).2, hpr.symm⟩

/-- C10 counterexample: not every file whose name ends in the three
characters `dcm` is a Scanner candidate: `glob('*dcm')` never matches a
hidden file, so the file named `.dcm` — which even the directory-shape
probe's `endswith('.dcm')` accepts — is not scanned. -/
theorem globStarDcm_counterexample :
    strEndsWith ".dcm" "dcm" = true ∧ globStarDcm ".dcm" = false := by decide

/-- C10 (amended): the Scanner's candidate filter is `glob('*dcm')`: a file
is a candidate exactly when its name ends in `dcm` — a preceding dot is not
required, e.g. `slidedcm` is scanned — and does not begin with `.` (hidden
files are never matched by glob).  The directory-shape probe classifies a
flat directory as a single instance only when every entry is a file ending
in `.dcm`, so the two filters accept different file sets: `slidedcm`
passes the glob filter but fails the probe's suffix test. -/
theorem globStarDcm_vs_probe (entries : List DirEntry) :
    (∀ n : String, globStarDcm n = (strEndsWith n "dcm" && !(strStartsWith n ".")))
  ∧ (scanSourceDir entries = InputDirStructure.FLAT →
      ∀ e ∈ entries, e.isFile = true ∧ strEndsWith e.name ".dcm" = true)
  ∧ globStarDcm "slidedcm" = true
  ∧ strEndsWith "slidedcm" ".dcm" = false := by
  refine ⟨fun n => rfl, ?_, by decide, by decide⟩
  intro hflat e he
  by_cases hall : entries.all (fun d => d.isFile && strEndsWith d.name ".dcm")
  · have := List.all_eq_true.mp hall e he
    exact ⟨by simpa using (Bool.and_eq_true _ _).mp this |>.1,
      (Bool.and_eq_true _ _).mp this |>.2⟩
  · exfalso
    unfold scanSourceDir at hflat
    simp only [hall, if_false] at hflat
    by_cases hfold : entries.all (fun d => d.isDir)
    · simp [hfold] at hflat
    · simp [hfold] at hflat

/-- C1: how the Importer behaves when the Matcher returns `None`.  The
single-instance path only logs the diagnostic: no directory is created, no
copy or metadata resolution is attempted, no error is raised.  The
multi-instance path, however, runs the copy block unconditionally: for the
first no-match instance it creates the output directory and then raises
`TypeError` (subscripting `None`), so the remaining instances — here
`"s2"`, which has a match — are never processed. -/
theorem importer_no_match_behavior :
    importSingleInstanceSteps "in" "out" none
      = ([.createInstance "inst0", .logNoMatch], none)
  ∧ importMultipleInstancesRun "in" (fun sid => "out/" ++ sid)
      [("s1", none), ("s2", some matchedRec)]
      = ([.createInstance "s1", .logNoMatch, .makeDirs ("out/" ++ "s1")],
         some PyErr.typeErrorNoneSubscript) :=
  ⟨rfl, rfl⟩

end WsiDicom
